import Mathlib

/-!
Verification of the PikakkoBot conversation-state core against its
specification.  The Python sources (`services.py`, `utils.py`, `handlers.py`,
`database.py`, `config.py`) are shallowly embedded below: pure functions
become Lean functions, stateful objects become explicit state passing, and
Python `dict` message objects become the `Msg` structure.  Machine details
that matter (Python truthiness of optional strings, negative-slice
semantics, dict-key presence vs. a `None` value) are modelled explicitly.
-/

namespace Pikakko

/-- The `uuid` slot of a message dict.  Python distinguishes a dict that has
no `"uuid"` key at all (`"uuid" not in msg`) from one whose value is `None`;
`utils.ContextCacheManager._ensure_uuid` branches on key *presence*, so the
embedding keeps the distinction. -/
inductive UuidField where
  | absent
  | val (v : Option String)
deriving DecidableEq, Repr

/-- One transcript entry, mirroring the message dicts built in
`handlers.py` / `services.py`: role, content, optional uuid / timestamp /
reply_to / model fields. -/
structure Msg where
  role : String
  content : String
  uuid : UuidField
  ts : Option String
  reply_to : Option String
  model : Option String
deriving DecidableEq, Repr

/-- `msg.get("uuid")`: `None` both when the key is absent and when the stored
value is `None`. -/
def Msg.getUuid (m : Msg) : Option String :=
  match m.uuid with
  | .absent => none
  | .val v => v

/-- Python truthiness of an optional string: `None` and `""` are falsy. -/
def truthyOpt : Option String → Bool
  | none => false
  | some s => s ≠ ""

/-- A plain user/assistant/system message with just role, content and a
(present) uuid value, as built throughout `handlers.py`. -/
def mkMsg (role content : String) (u : Option String) : Msg :=
  { role := role, content := content, uuid := .val u,
    ts := none, reply_to := none, model := none }

/-- The history-related constants of `config.Config`. -/
structure Config where
  LIMIT_HISTORY_GROUP : Nat
  SUMMARY_TRIGGER_PRIVATE : Nat
  SUMMARY_RETAIN_PRIVATE : Nat
  MAX_SAFETY_LIMIT : Nat
deriving DecidableEq, Repr

/-- The default values from `config.py`. -/
def defaultConfig : Config :=
  { LIMIT_HISTORY_GROUP := 20
    SUMMARY_TRIGGER_PRIVATE := 35
    SUMMARY_RETAIN_PRIVATE := 15
    MAX_SAFETY_LIMIT := 40 }

/-- Python `l[-k:]` for `k ≥ 0`: the last `k` elements (the whole list when
`k ≥ len(l)`). -/
def pySliceLast (k : Nat) (l : List Msg) : List Msg :=
  l.drop (l.length - k)

/-- Return value of `services.check_and_prepare_task`, together with the
cooldown value the function leaves behind (it decrements a positive
cooldown via `context_manager.set_cooldown`). -/
structure PrepareResult where
  task_msgs : Option (List Msg)
  forced_context : Option (List Msg)
  cooldown_after : Nat
deriving DecidableEq, Repr

/-- `services.check_and_prepare_task` (services.py lines 314-337).
`context` is the transcript after the new turn was appended; the first
component of the result is the condensation candidate
(`msgs_to_summarize`), the second the forced truncated context. -/
def check_and_prepare_task (cfg : Config) (cooldown : Nat) (chat_type : String)
    (context : List Msg) : PrepareResult :=
  if cooldown > 0 then
    if context.length > cfg.MAX_SAFETY_LIMIT then
      ⟨none, some (pySliceLast cfg.SUMMARY_TRIGGER_PRIVATE context), cooldown - 1⟩
    else
      ⟨none, none, cooldown - 1⟩
  else if context.length > cfg.MAX_SAFETY_LIMIT then
    ⟨none, some (pySliceLast cfg.SUMMARY_TRIGGER_PRIVATE context), cooldown⟩
  else if chat_type ≠ "private" then
    if context.length > cfg.LIMIT_HISTORY_GROUP then
      ⟨none, some (pySliceLast cfg.LIMIT_HISTORY_GROUP context), cooldown⟩
    else
      ⟨none, none, cooldown⟩
  else if context.length ≤ cfg.SUMMARY_TRIGGER_PRIVATE then
    ⟨none, none, cooldown⟩
  else
    let split_index : Int := (context.length : Int) - (cfg.SUMMARY_RETAIN_PRIVATE : Int)
    if split_index ≤ 0 then
      ⟨none, none, cooldown⟩
    else
      ⟨some (context.take split_index.toNat), none, cooldown⟩

/-- The synthetic `system` turn built by `services.apply_summary_success`
(services.py lines 356-361); `fresh_uuid` stands for `uuid.uuid4()` and
`now_ts` for the formatted current time. -/
def mkSummaryNode (summary_text fresh_uuid now_ts : String) : Msg :=
  { role := "system"
    content := "【长期记忆/前情提要】：" ++ summary_text
    uuid := .val (some fresh_uuid)
    ts := some now_ts
    reply_to := none
    model := none }

/-- Outcome of `apply_summary_success` on the cached transcript: `cache` is
the cached transcript afterwards, and `raised` records whether the Python
code would raise `IndexError` (`msgs_to_summarize[0]` on an empty candidate
list); the raise happens before any `update_context` call, so the cache is
unchanged in that case too. -/
structure SummaryOutcome where
  raised : Bool
  cache : List Msg
deriving DecidableEq, Repr

/-- `services.apply_summary_success` (services.py lines 340-364).
`current_context` is what `context_manager.get_context` returns at call
time (the live cached transcript); the result describes the cache after
the call. -/
def apply_summary_success (fresh_uuid now_ts : String)
    (current_context msgs_to_summarize : List Msg) (summary_text : String) :
    SummaryOutcome :=
  if summary_text = "" then ⟨false, current_context⟩
  else if current_context.isEmpty then ⟨false, current_context⟩
  else
    let msg_count := msgs_to_summarize.length
    if current_context.length < msg_count then ⟨false, current_context⟩
    else
      match msgs_to_summarize.head?, msgs_to_summarize.getLast? with
      | some firstMsg, some lastMsg =>
        let start_uuid := firstMsg.getUuid
        let end_uuid := lastMsg.getUuid
        match current_context.head?, current_context.get? (msg_count - 1) with
        | some curFirst, some curLast =>
          if truthyOpt start_uuid && truthyOpt end_uuid
              && decide (start_uuid = curFirst.getUuid)
              && decide (end_uuid = curLast.getUuid) then
            ⟨false, mkSummaryNode summary_text fresh_uuid now_ts
                      :: current_context.drop msg_count⟩
          else ⟨false, current_context⟩
        | _, _ => ⟨false, current_context⟩
      | _, _ => ⟨true, current_context⟩

/-- The race-guard condition of `apply_summary_success`, stated over the
live transcript and the candidate: the candidate's first and last turn ids
are present (non-null, non-empty) and equal the live transcript's first
turn id and the id at the candidate's last position. -/
def candidateMatchesLive (live cand : List Msg) : Bool :=
  match cand.head?, cand.getLast?, live.head?, live.get? (cand.length - 1) with
  | some f, some l, some lf, some ll =>
    truthyOpt f.getUuid && truthyOpt l.getUuid
      && decide (f.getUuid = lf.getUuid) && decide (l.getUuid = ll.getUuid)
  | _, _, _, _ => false

/-- `services._insert_ai_reply` (services.py lines 377-393), as its effect on
the cached transcript: `context` is the copy obtained from `get_context`; the
result is what `update_context` stores back (or `context` itself when the
duplicate guard returns early without updating). -/
def _insert_ai_reply (context : List Msg) (user_msg_uuid : Option String)
    (ai_msg_obj : Msg) : List Msg :=
  if truthyOpt user_msg_uuid
      && context.any (fun m => decide (m.reply_to = user_msg_uuid)) then
    context
  else
    let insert_index : Option Nat :=
      if truthyOpt user_msg_uuid then
        (context.findIdx? (fun m => decide (m.getUuid = user_msg_uuid))).map (· + 1)
      else
        none
    match insert_index with
    | none => context ++ [ai_msg_obj]
    | some i =>
      if i > context.length then context ++ [ai_msg_obj]
      else context.insertIdx i ai_msg_obj

/-- A concrete assistant reply answering user turn `u1`, shaped like the
`ai_msg_obj` dict built in `handlers.core_reply_cycle`. -/
def aiReplyDemo : Msg :=
  { role := "assistant", content := "r", uuid := .val (some "a1"),
    ts := some "2026-01-01 00:00:00", reply_to := some "u1", model := some "grok" }

/-- A second assistant reply for the same user turn `u1`. -/
def aiReplyDemo2 : Msg :=
  { role := "assistant", content := "r2", uuid := .val (some "a2"),
    ts := some "2026-01-01 00:00:01", reply_to := some "u1", model := some "deepseek" }

/-- Entries of `utils.ChatLockManager._locks`: chat id ↦ `[lock, last_time]`.
A lock object (`threading.RLock()`) is identified by an allocation number,
so that "same lock instance" is expressible. -/
abbrev LockEntries := List (String × Nat × Nat)

/-- Dictionary lookup over the entry list (first match). -/
def lookupLock : LockEntries → String → Option (Nat × Nat)
  | [], _ => none
  | (c, v) :: t, cid => if c = cid then some v else lookupLock t cid

/-- `self._locks[chat_id_str][1] = time.time()`: update the stored
last-touch time of an existing entry, keeping the lock instance. -/
def setLockTime : LockEntries → String → Nat → LockEntries
  | [], _, _ => []
  | (c, v) :: t, cid, now =>
    if c = cid then (c, v.1, now) :: t else (c, v) :: setLockTime t cid now

/-- State of `utils.ChatLockManager`: the `_locks` dict plus an allocation
counter standing for "how many distinct `threading.RLock()` objects have
been created". -/
structure LockState where
  locks : LockEntries
  next : Nat

/-- `utils.ChatLockManager.get_lock` (utils.py lines 59-66): create the lock
on first access (a fresh instance `s.next`), otherwise refresh the time and
return the stored instance. -/
def get_lock (now : Nat) (s : LockState) (chat_id : String) : Nat × LockState :=
  match lookupLock s.locks chat_id with
  | some (l, _) => (l, { s with locks := setLockTime s.locks chat_id now })
  | none => (s.next, { locks := s.locks ++ [(chat_id, s.next, now)], next := s.next + 1 })

/-- A sequence of `get_lock` calls (chat id, wall-clock time). -/
def runLockCalls (s : LockState) : List (String × Nat) → LockState
  | [] => s
  | (c, now) :: rest => runLockCalls (get_lock now s c).2 rest

/-- Registry invariant: every stored lock instance predates the allocation
counter, and distinct entries hold distinct instances. -/
def LockInv (s : LockState) : Prop :=
  (∀ p ∈ s.locks, p.2.1 < s.next) ∧ (s.locks.map (fun p => p.2.1)).Nodup

/-- Result of one backend call (`AIService.get_chat_response`): generated
text, or a raised exception with its message. -/
inductive BackendResult where
  | ok (text : String)
  | err (msg : String)
deriving DecidableEq, Repr

/-- `ProviderManager.get_service_chain` (utils.py lines 421-433): the
preferred provider first (it is always a key of `self.services`, which holds
exactly the names of `provider_list`), then the remaining configured
providers in configuration order, skipping the preferred one. -/
def get_service_chain (provider_list : List String) (preferred : String) :
    List String :=
  (if preferred ∈ provider_list then [preferred] else [])
    ++ provider_list.filter (fun n => decide (n ≠ preferred))

/-- What the failover loop of `handlers.core_reply_cycle` accumulates:
the winning `(ai_reply, success_provider)` pair, the `error_log`, and the
list of backends actually invoked. -/
structure ReplyOutcome where
  success : Option (String × String)
  error_log : List String
  invoked : List String
deriving DecidableEq, Repr

/-- `error_log.append(f"{p_name}: {err_msg[:50]}...")` in
`handlers.core_reply_cycle`. -/
def truncatedFailure (name e : String) : String :=
  name ++ ": " ++ e.take 50 ++ "..."

/-- The failover loop of `handlers.core_reply_cycle` (handlers.py lines
54-74): call each backend in chain order; a backend returning non-empty
text wins and stops the iteration; an exception is recorded in `error_log`
and iteration continues; empty text continues without a log entry. -/
def run_provider_loop (behave : String → BackendResult) :
    List String → ReplyOutcome
  | [] => ⟨none, [], []⟩
  | n :: rest =>
    match behave n with
    | .ok t =>
      if t ≠ "" then ⟨some (t, n), [], [n]⟩
      else
        let r := run_provider_loop behave rest
        ⟨r.success, r.error_log, n :: r.invoked⟩
    | .err e =>
      let r := run_provider_loop behave rest
      ⟨r.success, truncatedFailure n e :: r.error_log, n :: r.invoked⟩

/-- `handlers.core_reply_cycle`, reply-generation part (handlers.py lines
54-77): run the failover loop over the service chain; if no backend
produced non-empty text, raise the aggregate "all routes failed" error. -/
def core_reply (behave : String → BackendResult) (provider_list : List String)
    (preferred : String) : Except String (String × String) :=
  let r := run_provider_loop behave (get_service_chain provider_list preferred)
  match r.success with
  | some p => .ok p
  | none => .error ("所有线路均失败: " ++ String.intercalate "; " r.error_log)

/-- A backend call wins when it returns without raising and its text is
non-empty. -/
def wins : BackendResult → Bool
  | .ok t => t ≠ ""
  | .err _ => false

/-- The text of a successful backend call. -/
def okText : BackendResult → String
  | .ok t => t
  | .err _ => ""

/-- The `error_log` entry a backend contributes, if any. -/
def errEntry (behave : String → BackendResult) (n : String) : Option String :=
  match behave n with
  | .err e => some (truncatedFailure n e)
  | .ok _ => none

/-- Demo backend behaviour: only `gemini` answers, everything else raises. -/
def behaveDemo : String → BackendResult := fun n =>
  if n = "gemini" then .ok "hello" else .err ("fail-" ++ n)

/-- Demo backend behaviour: every provider raises. -/
def behaveAllFail : String → BackendResult := fun n => .err ("down-" ++ n)

/-- A reference to a Python list object. -/
abbrev Ref := Nat

/-- Aliasing-explicit model of `utils.ContextCacheManager`'s data handling
(utils.py lines 106-126 and 143-160): `heap` is the arena of live list
objects (a reference is an index), `entries` maps a chat id to the list
object owned by the cache entry's `data` slot.  `copy.deepcopy` is
modelled as allocating a fresh object with the same content; two values
can interfere through mutation only if they are the same reference. -/
structure AliasCache where
  heap : List (List Msg)
  entries : List (String × Ref)

/-- Dereference a list object (reads of dangling references yield `[]`;
they never arise). -/
def heapRead (heap : List (List Msg)) (r : Ref) : List Msg :=
  (heap[r]?).getD []

/-- `copy.deepcopy(v)`: a fresh object with content `v`. -/
def deepcopyAlloc (s : AliasCache) (v : List Msg) : Ref × AliasCache :=
  (s.heap.length, { s with heap := s.heap ++ [v] })

/-- First-match association lookup for the `_cache` dict. -/
def lookupRef : List (String × Ref) → String → Option Ref
  | [], _ => none
  | (c, r) :: t, cid => if c = cid then some r else lookupRef t cid

/-- Dict update for the `_cache` dict. -/
def setRef : List (String × Ref) → String → Ref → List (String × Ref)
  | [], cid, r => [(cid, r)]
  | (c, v) :: t, cid, r =>
    if c = cid then (c, r) :: t else (c, v) :: setRef t cid r

/-- `update_context(chat_id, new_context)`, data part: the cache stores a
deep copy of the caller's object `r` (utils.py line 153). -/
def update_context_alias (s : AliasCache) (cid : String) (r : Ref) : AliasCache :=
  let v := heapRead s.heap r
  let rs := deepcopyAlloc s v
  { rs.2 with entries := setRef rs.2.entries cid rs.1 }

/-- `get_context(chat_id)`, data part: on a hit return a deep copy of the
cache-owned object (utils.py line 123); on a miss store the hydrated list
and return a deep copy of it. -/
def get_context_alias (s : AliasCache) (cid : String) (hydrated : List Msg) :
    Ref × AliasCache :=
  match lookupRef s.entries cid with
  | some rc => deepcopyAlloc s (heapRead s.heap rc)
  | none =>
    let rs := deepcopyAlloc s hydrated
    let s2 := { rs.2 with entries := setRef rs.2.entries cid rs.1 }
    deepcopyAlloc s2 (heapRead s2.heap rs.1)

/-- In-place mutation of the list object `r` (e.g. `lst.append(...)` on a
value the caller holds). -/
def mutateRef (s : AliasCache) (r : Ref) (v : List Msg) : AliasCache :=
  { s with heap := s.heap.set r v }

/-- One `ContextCacheManager._cache` entry (utils.py lines 114-119). -/
structure CacheEntry where
  data : List Msg
  dirty_count : Nat
  summary_cooldown : Nat
  last_access : Nat
deriving DecidableEq, Repr

/-- Cache plus store: `store` is the `chat_history` table keyed by chat id
(`save_chat_history` deletes then re-inserts all rows of the chat, i.e.
replace-all). -/
structure FlushState where
  cache : List (String × CacheEntry)
  store : List (String × List Msg)
deriving DecidableEq, Repr

def lookupEntry : List (String × CacheEntry) → String → Option CacheEntry
  | [], _ => none
  | (c, e) :: t, cid => if c = cid then some e else lookupEntry t cid

def setEntry : List (String × CacheEntry) → String → CacheEntry →
    List (String × CacheEntry)
  | [], cid, e => [(cid, e)]
  | (c, v) :: t, cid, e =>
    if c = cid then (c, e) :: t else (c, v) :: setEntry t cid e

def lookupStore : List (String × List Msg) → String → Option (List Msg)
  | [], _ => none
  | (c, d) :: t, cid => if c = cid then some d else lookupStore t cid

def setStore : List (String × List Msg) → String → List Msg →
    List (String × List Msg)
  | [], cid, d => [(cid, d)]
  | (c, v) :: t, cid, d =>
    if c = cid then (c, d) :: t else (c, v) :: setStore t cid d

/-- The `SAVE_THRESHOLD` of `ContextCacheManager` (utils.py line 92). -/
def SAVE_THRESHOLD : Nat := 3

/-- `ContextCacheManager._flush_to_db` (utils.py lines 187-203): snapshot
the entry, try the store write (`ok` is its outcome), reset `dirty_count`
to 0 only on success; on failure log and return with the cache untouched.
The exception is caught inside the method, so the function is total. -/
def _flush_to_db (ok : Bool) (s : FlushState) (cid : String) : FlushState :=
  match lookupEntry s.cache cid with
  | none => s
  | some e =>
    if ok then
      { cache := setEntry s.cache cid { e with dirty_count := 0 },
        store := setStore s.store cid e.data }
    else s

/-- `ContextCacheManager._flush_evictions` (utils.py lines 162-173):
entries in `pend` were already removed from the cache; clean entries are
dropped, dirty entries are saved; a failed save re-admits the entry (with a
fresh `last_access`, modelled by `now`) unless the chat id was re-created
meanwhile.  `ok` gives each store write's outcome. -/
def _flush_evictions (ok : String → Bool) (now : Nat) (s : FlushState) :
    List (String × CacheEntry) → FlushState
  | [] => s
  | (cid, e) :: rest =>
    if e.dirty_count ≤ 0 then _flush_evictions ok now s rest
    else if ok cid then
      _flush_evictions ok now { s with store := setStore s.store cid e.data } rest
    else
      let s2 := if (lookupEntry s.cache cid).isNone then
          { s with cache := setEntry s.cache cid { e with last_access := now } }
        else s
      _flush_evictions ok now s2 rest

/-- `ContextCacheManager._evict_inactive_entries` (utils.py lines 238-249):
snapshot and remove every entry idle past the TTL; returns the pending
eviction list and the shrunk cache. -/
def _evict_inactive_entries (now CACHE_TTL : Nat) (s : FlushState) :
    List (String × CacheEntry) × FlushState :=
  (s.cache.filter (fun p => now - p.2.last_access > CACHE_TTL),
   { s with cache := s.cache.filter (fun p => ¬ (now - p.2.last_access > CACHE_TTL)) })

/-- `ContextCacheManager.update_context` (utils.py lines 143-160),
value-level: store a copy of the new transcript, bump `dirty_count` and
`last_access`, and flush when forced or at the dirty threshold (`ok` is the
outcome of that store write).  Capacity eviction (cache above 1000 entries)
is not reached here and elided. -/
def update_context_val (ok : Bool) (now : Nat) (s : FlushState) (cid : String)
    (new_context : List Msg) (force_save : Bool) : FlushState :=
  let e0 : CacheEntry := match lookupEntry s.cache cid with
    | some e => e
    | none => { data := [], dirty_count := 0, summary_cooldown := 0, last_access := now }
  let e1 : CacheEntry :=
    { e0 with
      data := new_context, dirty_count := e0.dirty_count + 1, last_access := now }
  let s1 : FlushState := { s with cache := setEntry s.cache cid e1 }
  if force_save || decide (e1.dirty_count ≥ SAVE_THRESHOLD) then
    _flush_to_db ok s1 cid
  else s1

/-- `ContextCacheManager.flush_all` (utils.py lines 218-222): flush every
dirty entry. -/
def flush_all (ok : String → Bool) (s : FlushState) : FlushState :=
  ((s.cache.filter (fun p => p.2.dirty_count > 0)).map Prod.fst).foldl
    (fun acc cid => _flush_to_db (ok cid) acc cid) s

/-- A concrete dirty cache entry holding one unsaved turn. -/
def entryDemo : CacheEntry :=
  { data := [mkMsg "user" "unsaved" (some "u9")], dirty_count := 2,
    summary_cooldown := 0, last_access := 10 }

/-- One row of the `chat_history` table as read back by
`Database.load_chat_history` (database.py lines 303-308).  The schema
declares `msg_uuid TEXT NOT NULL`, but the Python layer maps whatever value
the row carries, so the field is modelled as optional. -/
structure ChatRow where
  msg_uuid : Option String
  role : String
  content : String
  ts : String
deriving DecidableEq, Repr

/-- `Database.load_chat_history`: each row becomes a message dict whose
`uuid` key is always present (holding the stored value, possibly null). -/
def load_chat_history (rows : List ChatRow) : List Msg :=
  rows.map (fun r =>
    { role := r.role, content := r.content, uuid := .val r.msg_uuid,
      ts := some r.ts, reply_to := none, model := none })

/-- `ContextCacheManager._ensure_uuid` (utils.py lines 100-104): assign a
fresh uuid to every message whose dict lacks the `"uuid"` key; `freshIds`
supplies the `uuid.uuid4()` draws and the counter threads through them. -/
def _ensure_uuid (freshIds : Nat → String) : Nat → List Msg → List Msg × Nat
  | n, [] => ([], n)
  | n, m :: rest =>
    match m.uuid with
    | .absent =>
      let rs := _ensure_uuid freshIds (n + 1) rest
      ({ m with uuid := .val (some (freshIds n)) } :: rs.1, rs.2)
    | .val _ =>
      let rs := _ensure_uuid freshIds n rest
      (m :: rs.1, rs.2)

/-- `get_context` on a cache miss (utils.py lines 111-113): hydrate from the
store and run `_ensure_uuid` over the loaded transcript. -/
def hydrate_context (freshIds : Nat → String) (rows : List ChatRow) : List Msg :=
  (_ensure_uuid freshIds 0 (load_chat_history rows)).1

/-- A deterministic stand-in for the `uuid.uuid4()` draws. -/
def fidDemo : Nat → String := fun n => "gen-" ++ toString n

/-- A stored row whose `msg_uuid` is null. -/
def rowNullDemo : ChatRow :=
  { msg_uuid := none, role := "user", content := "hi", ts := "t0" }

/-- A stored row with id `a`. -/
def rowADemo : ChatRow :=
  { msg_uuid := some "a", role := "user", content := "x", ts := "t1" }

/-- The message that `rowNullDemo` hydrates to. -/
def hydratedNullDemo : Msg :=
  { role := "user", content := "hi", uuid := .val none,
    ts := some "t0", reply_to := none, model := none }

/-- **C2.**  Whenever the transcript length exceeds the absolute safety
ceiling (default `MAX_SAFETY_LIMIT = 40`), `check_and_prepare_task` forces
truncation to the last `SUMMARY_TRIGGER_PRIVATE = 35` turns and proposes no
condensation candidate, for every chat kind and every cooldown value (both
`cooldown > 0` and `cooldown = 0`); in particular at length 41 the decision
is Truncate to the last 35. -/
theorem claim_C2_safety_ceiling_truncates (context : List Msg)
    (h : context.length > 40) (chat_type : String) (cooldown : Nat) :
    (check_and_prepare_task defaultConfig cooldown chat_type context).task_msgs = none ∧
    (check_and_prepare_task defaultConfig cooldown chat_type context).forced_context
      = some (context.drop (context.length - 35)) := by
  unfold check_and_prepare_task pySliceLast defaultConfig
  rcases Nat.eq_zero_or_pos cooldown with h0 | hpos
  · subst h0
    simp [h]
  · simp [hpos, h]

/-- Witness for C2: a private chat at length 41 with cooldown 0 is truncated
to the last 35 turns. -/
theorem claim_C2_safety_ceiling_truncates_witness :
    (List.replicate 41 (mkMsg "user" "x" (some "u"))).length > 40 ∧
    (check_and_prepare_task defaultConfig 0 "private"
        (List.replicate 41 (mkMsg "user" "x" (some "u")))).forced_context
      = some (List.replicate 35 (mkMsg "user" "x" (some "u"))) := by
  refine ⟨by decide, ?_⟩
  have h := claim_C2_safety_ceiling_truncates
    (List.replicate 41 (mkMsg "user" "x" (some "u"))) (by decide) "private" 0
  rw [h.2]
  decide

/-- **C3.**  For a private chat with cooldown 0 and length within the safety
ceiling: length at most the trigger (35) yields Append (no candidate, no
truncation); length above the trigger yields a condensation candidate of
exactly the oldest `length - 15` turns (at length 36: the first 21 turns);
and in general, for any configuration, a non-positive `length - retain`
falls back to Append. -/
theorem claim_C3_private_condensation_policy (context : List Msg)
    (hsafe : context.length ≤ 40) :
    ((context.length ≤ 35 →
        check_and_prepare_task defaultConfig 0 "private" context = ⟨none, none, 0⟩) ∧
     (35 < context.length →
        check_and_prepare_task defaultConfig 0 "private" context
          = ⟨some (context.take (context.length - 15)), none, 0⟩) ∧
     (context.length = 36 →
        (check_and_prepare_task defaultConfig 0 "private" context).task_msgs
          = some (context.take 21))) ∧
    (∀ cfg : Config, context.length ≤ cfg.MAX_SAFETY_LIMIT →
        cfg.SUMMARY_TRIGGER_PRIVATE < context.length →
        (context.length : Int) - (cfg.SUMMARY_RETAIN_PRIVATE : Int) ≤ 0 →
        check_and_prepare_task cfg 0 "private" context = ⟨none, none, 0⟩) := by
  constructor
  · refine ⟨?_, ?_, ?_⟩
    · intro hle
      unfold check_and_prepare_task defaultConfig
      simp only [gt_iff_lt]
      have h40 : ¬ context.length > 40 := by omega
      simp [h40, hle]
    · intro hgt
      unfold check_and_prepare_task defaultConfig
      have h40 : ¬ context.length > 40 := by omega
      have hle : ¬ context.length ≤ 35 := by omega
      have h15 : ¬ context.length ≤ 15 := by omega
      simp [h40, hle, h15]
      omega
    · intro h36
      unfold check_and_prepare_task defaultConfig
      have h40 : ¬ context.length > 40 := by omega
      have hle : ¬ context.length ≤ 35 := by omega
      have h15 : ¬ context.length ≤ 15 := by omega
      simp [h40, hle, h15]
      omega
  · intro cfg hsafe2 htrig hneg
    unfold check_and_prepare_task
    have h1 : ¬ context.length > cfg.MAX_SAFETY_LIMIT := by omega
    have h2 : ¬ context.length ≤ cfg.SUMMARY_TRIGGER_PRIVATE := by omega
    simp [h1, h2, hneg]

/-- Witness for C3: at length 36 the candidate is the first 21 turns, and at
length 30 the decision is Append. -/
theorem claim_C3_private_condensation_policy_witness :
    (check_and_prepare_task defaultConfig 0 "private"
        (List.replicate 36 (mkMsg "user" "x" (some "u")))).task_msgs
      = some (List.replicate 21 (mkMsg "user" "x" (some "u"))) ∧
    check_and_prepare_task defaultConfig 0 "private"
        (List.replicate 30 (mkMsg "user" "x" (some "u"))) = ⟨none, none, 0⟩ := by
  constructor
  · have h := (claim_C3_private_condensation_policy
      (List.replicate 36 (mkMsg "user" "x" (some "u"))) (by decide)).1.2.2 (by decide)
    rw [h]
    decide
  · exact (claim_C3_private_condensation_policy
      (List.replicate 30 (mkMsg "user" "x" (some "u"))) (by decide)).1.1 (by decide)

/-- The cache after `apply_summary_success` in one equation: the candidate
prefix is replaced exactly when the race-guard condition holds, otherwise
the cached transcript is returned unchanged. -/
theorem apply_summary_success_cache_eq (fu ts : String) (live cand : List Msg)
    (s : String) (hs : s ≠ "") :
    (apply_summary_success fu ts live cand s).cache =
      if candidateMatchesLive live cand then
        mkSummaryNode s fu ts :: live.drop cand.length
      else live := by
  unfold apply_summary_success candidateMatchesLive
  rw [if_neg hs]
  rcases cand with _ | ⟨c0, cr⟩
  · rcases live with _ | ⟨l0, lr⟩ <;> simp
  · rcases live with _ | ⟨l0, lr⟩
    · simp
    · obtain ⟨cl, hcl⟩ : ∃ x, (c0 :: cr).getLast? = some x := by
        cases h : (c0 :: cr).getLast?
        · simp [List.getLast?_eq_none_iff] at h
        · exact ⟨_, rfl⟩
      by_cases hlen : lr.length < cr.length
      · have hnone : (l0 :: lr)[cr.length]? = none := by
          apply List.getElem?_eq_none
          simp only [List.length_cons]
          omega
        simp [hcl, hnone, hlen]
      · obtain ⟨ll, hll⟩ : ∃ x, (l0 :: lr)[cr.length]? = some x := by
          have hlt : cr.length < (l0 :: lr).length := by
            simp only [List.length_cons]
            omega
          exact ⟨_, List.getElem?_eq_getElem hlt⟩
        simp [hcl, hll, hlen]
        split <;> rfl

/-- **C1.**  For every candidate prefix and non-empty summary text,
`apply_summary_success` replaces the candidate prefix of the live cached
transcript by exactly one synthetic system turn carrying the condensed text
followed by the untouched suffix if and only if the live transcript's first
turn id and the id at the candidate's last position are present and equal
the candidate's first and last turn ids (`candidateMatchesLive`); in every
other case the cached transcript is left unchanged. -/
theorem claim_C1_condensation_race_guard (fu ts : String) (live cand : List Msg)
    (s : String) (hs : s ≠ "") :
    (candidateMatchesLive live cand = true →
      (apply_summary_success fu ts live cand s).cache =
        mkSummaryNode s fu ts :: live.drop cand.length) ∧
    (candidateMatchesLive live cand = false →
      (apply_summary_success fu ts live cand s).cache = live) := by
  constructor
  · intro h
    rw [apply_summary_success_cache_eq fu ts live cand s hs, if_pos h]
  · intro h
    rw [apply_summary_success_cache_eq fu ts live cand s hs, if_neg (by simp [h])]

/-- Witness for C1: a matching two-turn candidate is condensed into one
system turn plus the suffix; changing the live head id makes the result be
discarded. -/
theorem claim_C1_condensation_race_guard_witness :
    ("S" : String) ≠ "" ∧
    (apply_summary_success "f1" "t1"
        [mkMsg "user" "a" (some "u1"), mkMsg "assistant" "b" (some "u2"),
         mkMsg "user" "c" (some "u3")]
        [mkMsg "user" "a" (some "u1"), mkMsg "assistant" "b" (some "u2")]
        "S").cache
      = [mkSummaryNode "S" "f1" "t1", mkMsg "user" "c" (some "u3")] ∧
    (apply_summary_success "f1" "t1"
        [mkMsg "user" "z" (some "other"), mkMsg "assistant" "b" (some "u2"),
         mkMsg "user" "c" (some "u3")]
        [mkMsg "user" "a" (some "u1"), mkMsg "assistant" "b" (some "u2")]
        "S").cache
      = [mkMsg "user" "z" (some "other"), mkMsg "assistant" "b" (some "u2"),
         mkMsg "user" "c" (some "u3")] := by
  refine ⟨by decide, ?_, ?_⟩
  · have h := (claim_C1_condensation_race_guard "f1" "t1"
      [mkMsg "user" "a" (some "u1"), mkMsg "assistant" "b" (some "u2"),
       mkMsg "user" "c" (some "u3")]
      [mkMsg "user" "a" (some "u1"), mkMsg "assistant" "b" (some "u2")]
      "S" (by decide)).1 (by decide)
    rw [h]
    decide
  · exact (claim_C1_condensation_race_guard "f1" "t1"
      [mkMsg "user" "z" (some "other"), mkMsg "assistant" "b" (some "u2"),
       mkMsg "user" "c" (some "u3")]
      [mkMsg "user" "a" (some "u1"), mkMsg "assistant" "b" (some "u2")]
      "S" (by decide)).2 (by decide)

theorem findIdx?_append_first (p : Msg → Bool) (pre post : List Msg) (tgt : Msg)
    (h1 : ∀ x ∈ pre, p x = false) (h2 : p tgt = true) :
    (pre ++ tgt :: post).findIdx? p = some pre.length := by
  induction pre with
  | nil => simp [h2]
  | cons a t ih =>
    have ha : p a = false := h1 a (by simp)
    have iht := ih (fun x hx => h1 x (by simp [hx]))
    simp only [List.cons_append, List.findIdx?_cons, ha, Bool.false_eq_true, if_false,
      List.findIdx?_start_succ, iht, Option.map_some', List.length_cons]

theorem insertIdx_after_decomp (pre post : List Msg) (tgt m : Msg) :
    (pre ++ tgt :: post).insertIdx (pre.length + 1) m = pre ++ tgt :: m :: post := by
  induction pre with
  | nil => simp
  | cons a t ih => simp [ih]

theorem insert_dup_guard (u : String) (hu : u ≠ "") (context : List Msg) (mm : Msg)
    (hany : context.any (fun x => decide (x.reply_to = some u)) = true) :
    _insert_ai_reply context (some u) mm = context := by
  unfold _insert_ai_reply
  rw [if_pos (by simp [truthyOpt, hu, hany])]

theorem insert_no_dup_eq (u : String) (hu : u ≠ "") (context : List Msg) (mm : Msg)
    (hany : context.any (fun x => decide (x.reply_to = some u)) = false) :
    _insert_ai_reply context (some u) mm =
      match context.findIdx? (fun x => decide (x.getUuid = some u)) with
      | none => context ++ [mm]
      | some i => context.insertIdx (i + 1) mm := by
  have htr : truthyOpt (some u) = true := by simp [truthyOpt, hu]
  unfold _insert_ai_reply
  rw [if_neg (by simp [hany])]
  cases hidx : context.findIdx? (fun x => decide (x.getUuid = some u)) with
  | none => simp [htr, hidx]
  | some i =>
    have hlt : i < context.length := (List.findIdx?_eq_some_iff_findIdx_eq.mp hidx).1
    simp only [htr, if_true, hidx, Option.map_some']
    rw [if_neg (by omega)]

/-- **C10.**  Inserting an assistant reply for a (non-empty) user-turn id
`u`: if the cached transcript already contains a turn whose `reply_to`
equals `u`, the transcript is unchanged — in particular inserting the same
reply twice is a no-op the second time; otherwise the reply is inserted
immediately after the (unique) turn whose id is `u`, or appended at the end
when no turn has id `u`. -/
theorem claim_C10_insert_ai_reply (u : String) (hu : u ≠ "") (m m2 : Msg) :
    (∀ context : List Msg, (∃ x ∈ context, x.reply_to = some u) →
        _insert_ai_reply context (some u) m = context) ∧
    (∀ pre post : List Msg, ∀ tgt : Msg,
        (∀ x ∈ pre ++ tgt :: post, x.reply_to ≠ some u) →
        (∀ x ∈ pre, x.getUuid ≠ some u) → tgt.getUuid = some u →
        _insert_ai_reply (pre ++ tgt :: post) (some u) m
          = pre ++ tgt :: m :: post) ∧
    (∀ context : List Msg,
        (∀ x ∈ context, x.reply_to ≠ some u) →
        (∀ x ∈ context, x.getUuid ≠ some u) →
        _insert_ai_reply context (some u) m = context ++ [m]) ∧
    (∀ context : List Msg, m.reply_to = some u →
        _insert_ai_reply (_insert_ai_reply context (some u) m) (some u) m2
          = _insert_ai_reply context (some u) m) := by
  refine ⟨?_, ?_, ?_, ?_⟩
  · intro context ⟨x, hx, hxr⟩
    exact insert_dup_guard u hu context m
      (List.any_eq_true.mpr ⟨x, hx, by simp [hxr]⟩)
  · intro pre post tgt hnor hpre htgt
    have hany : (pre ++ tgt :: post).any (fun x => decide (x.reply_to = some u)) = false := by
      rw [Bool.eq_false_iff]
      intro hc
      rw [List.any_eq_true] at hc
      obtain ⟨x, hx, hxr⟩ := hc
      exact hnor x hx (by simpa using hxr)
    have hidx : (pre ++ tgt :: post).findIdx?
        (fun x => decide (x.getUuid = some u)) = some pre.length := by
      apply findIdx?_append_first
      · intro x hx
        simp [hpre x hx]
      · simp [htgt]
    rw [insert_no_dup_eq u hu _ m hany, hidx]
    exact insertIdx_after_decomp pre post tgt m
  · intro context hnor hnou
    have hany : context.any (fun x => decide (x.reply_to = some u)) = false := by
      rw [Bool.eq_false_iff]
      intro hc
      rw [List.any_eq_true] at hc
      obtain ⟨x, hx, hxr⟩ := hc
      exact hnor x hx (by simpa using hxr)
    have hidx : context.findIdx? (fun x => decide (x.getUuid = some u)) = none := by
      rw [List.findIdx?_eq_none_iff]
      intro x hx
      simp [hnou x hx]
    rw [insert_no_dup_eq u hu _ m hany, hidx]
  · intro context hm
    by_cases hc : context.any (fun x => decide (x.reply_to = some u))
    · rw [insert_dup_guard u hu context m hc]
      exact insert_dup_guard u hu context m2 hc
    · have hc0 : context.any (fun x => decide (x.reply_to = some u)) = false := by
        simpa using hc
      have hmem : m ∈ _insert_ai_reply context (some u) m := by
        rw [insert_no_dup_eq u hu context m hc0]
        cases hidx : context.findIdx? (fun x => decide (x.getUuid = some u)) with
        | none => simp
        | some i =>
          have hlt : i < context.length := (List.findIdx?_eq_some_iff_findIdx_eq.mp hidx).1
          simp only
          rw [List.mem_insertIdx (by omega)]
          exact Or.inl rfl
      exact insert_dup_guard u hu _ m2
        (List.any_eq_true.mpr ⟨m, hmem, by simp [hm]⟩)

/-- Witness for C10: the reply is inserted right after the user turn, and a
second insertion for the same user-turn id leaves the transcript unchanged. -/
theorem claim_C10_insert_ai_reply_witness :
    ("u1" : String) ≠ "" ∧
    _insert_ai_reply [mkMsg "user" "q" (some "u1")] (some "u1") aiReplyDemo
      = [mkMsg "user" "q" (some "u1"), aiReplyDemo] ∧
    _insert_ai_reply [mkMsg "user" "q" (some "u1"), aiReplyDemo] (some "u1") aiReplyDemo2
      = [mkMsg "user" "q" (some "u1"), aiReplyDemo] := by
  refine ⟨by decide, ?_, ?_⟩
  · have h := (claim_C10_insert_ai_reply "u1" (by decide) aiReplyDemo aiReplyDemo2).2.1
      [] [] (mkMsg "user" "q" (some "u1")) (by decide) (by decide) (by decide)
    simpa using h
  · exact (claim_C10_insert_ai_reply "u1" (by decide) aiReplyDemo2 aiReplyDemo).1
      [mkMsg "user" "q" (some "u1"), aiReplyDemo] (by decide)

theorem lookupLock_setLockTime_self (l : LockEntries) (cid : String) (now : Nat)
    (v : Nat × Nat) (h : lookupLock l cid = some v) :
    lookupLock (setLockTime l cid now) cid = some (v.1, now) := by
  induction l with
  | nil => simp [lookupLock] at h
  | cons p t ih =>
    obtain ⟨c, w⟩ := p
    by_cases hc : c = cid
    · subst hc
      simp [lookupLock, setLockTime] at h ⊢
      simp [h]
    · simp [lookupLock, setLockTime, hc] at h ⊢
      exact ih h

theorem lookupLock_setLockTime_other (l : LockEntries) (cid c2 : String) (now : Nat)
    (h : c2 ≠ cid) :
    lookupLock (setLockTime l cid now) c2 = lookupLock l c2 := by
  induction l with
  | nil => simp [setLockTime]
  | cons p t ih =>
    obtain ⟨c, w⟩ := p
    by_cases hc : c = cid
    · subst hc
      have hne : ¬ c = c2 := fun hh => h hh.symm
      simp [lookupLock, setLockTime, hne]
    · simp [lookupLock, setLockTime, hc]
      by_cases hc2 : c = c2 <;> simp [hc2, ih]

theorem lookupLock_append_found (l : LockEntries) (e : String × Nat × Nat)
    (cid : String) (v : Nat × Nat) (h : lookupLock l cid = some v) :
    lookupLock (l ++ [e]) cid = some v := by
  induction l with
  | nil => simp [lookupLock] at h
  | cons p t ih =>
    obtain ⟨c, w⟩ := p
    by_cases hc : c = cid <;> simp [lookupLock, hc] at h ⊢ <;> simp_all [ih]

theorem lookupLock_append_none (l : LockEntries) (e : String × Nat × Nat)
    (cid : String) (h : lookupLock l cid = none) :
    lookupLock (l ++ [e]) cid = if e.1 = cid then some e.2 else none := by
  induction l with
  | nil => simp [lookupLock]
  | cons p t ih =>
    obtain ⟨c, w⟩ := p
    by_cases hc : c = cid <;> simp [lookupLock, hc] at h ⊢
    · exact ih h

/-- After any `get_lock`, an association already present keeps its lock
instance (only its time may change). -/
theorem get_lock_preserves (now : Nat) (s : LockState) (c c2 : String)
    (l t : Nat) (h : lookupLock s.locks c2 = some (l, t)) :
    ∃ t2, lookupLock (get_lock now s c).2.locks c2 = some (l, t2) := by
  unfold get_lock
  cases hc : lookupLock s.locks c with
  | some v =>
    obtain ⟨lv, tv⟩ := v
    by_cases he : c2 = c
    · subst he
      exact ⟨now, lookupLock_setLockTime_self s.locks c2 now (l, t) h⟩
    · exact ⟨t, by rw [lookupLock_setLockTime_other s.locks c c2 now he, h]⟩
  | none =>
    refine ⟨t, ?_⟩
    have hne : c ≠ c2 := by
      intro he
      subst he
      rw [hc] at h
      cases h
    exact lookupLock_append_found s.locks _ c2 (l, t) h

/-- The association after a run of calls still carries the same instance. -/
theorem runLockCalls_preserves (calls : List (String × Nat)) (s : LockState)
    (c2 : String) (l t : Nat) (h : lookupLock s.locks c2 = some (l, t)) :
    ∃ t2, lookupLock (runLockCalls s calls).locks c2 = some (l, t2) := by
  induction calls generalizing s t with
  | nil => exact ⟨t, h⟩
  | cons p rest ih =>
    obtain ⟨c, now⟩ := p
    obtain ⟨t2, h2⟩ := get_lock_preserves now s c c2 l t h
    exact ih (get_lock now s c).2 t2 h2

/-- Directly after `get_lock`, the registry maps the chat id to the returned
instance. -/
theorem get_lock_lookup_self (now : Nat) (s : LockState) (c : String) :
    lookupLock (get_lock now s c).2.locks c = some ((get_lock now s c).1, now) := by
  unfold get_lock
  cases hc : lookupLock s.locks c with
  | some v =>
    obtain ⟨lv, tv⟩ := v
    exact lookupLock_setLockTime_self s.locks c now (lv, tv) hc
  | none =>
    simpa using lookupLock_append_none s.locks (c, s.next, now) c hc

theorem lookupLock_mem (l : LockEntries) (cid : String) (v : Nat × Nat)
    (h : lookupLock l cid = some v) : (cid, v) ∈ l := by
  induction l with
  | nil => simp [lookupLock] at h
  | cons p t ih =>
    obtain ⟨c, w⟩ := p
    by_cases hc : c = cid
    · subst hc
      simp [lookupLock] at h
      simp [h]
    · simp [lookupLock, hc] at h
      simp [ih h]

theorem map_ids_setLockTime (l : LockEntries) (cid : String) (now : Nat) :
    (setLockTime l cid now).map (fun p => p.2.1) = l.map (fun p => p.2.1) := by
  induction l with
  | nil => simp [setLockTime]
  | cons p t ih =>
    obtain ⟨c, w⟩ := p
    by_cases hc : c = cid <;> simp [setLockTime, hc, ih]

/-- `get_lock` preserves the registry invariant. -/
theorem LockInv_get_lock (now : Nat) (s : LockState) (c : String)
    (h : LockInv s) : LockInv (get_lock now s c).2 := by
  obtain ⟨h1, h2⟩ := h
  unfold get_lock
  cases hc : lookupLock s.locks c with
  | some v =>
    refine ⟨?_, ?_⟩
    · intro p hp
      have : p.2.1 ∈ (setLockTime s.locks c now).map (fun p => p.2.1) :=
        List.mem_map_of_mem _ hp
      rw [map_ids_setLockTime] at this
      obtain ⟨q, hq, hq2⟩ := List.mem_map.mp this
      rw [← hq2]
      exact h1 q hq
    · rw [map_ids_setLockTime]
      exact h2
  | none =>
    refine ⟨?_, ?_⟩
    · intro p hp
      rcases List.mem_append.mp hp with hp | hp
      · exact Nat.lt_succ_of_lt (h1 p hp)
      · simp at hp
        simp [hp]
    · simp only [List.map_append, List.map_cons, List.map_nil]
      rw [List.nodup_append]
      refine ⟨h2, List.nodup_singleton _, ?_⟩
      intro a ha
      simp only [List.mem_singleton]
      intro hb
      obtain ⟨q, hq, hq2⟩ := List.mem_map.mp ha
      subst hb
      have := h1 q hq
      omega

/-- `runLockCalls` preserves the registry invariant. -/
theorem LockInv_runLockCalls (calls : List (String × Nat)) (s : LockState)
    (h : LockInv s) : LockInv (runLockCalls s calls) := by
  induction calls generalizing s with
  | nil => exact h
  | cons p rest ih =>
    obtain ⟨c, now⟩ := p
    exact ih _ (LockInv_get_lock now s c h)

/-- **C8.**  In any registry state satisfying the invariant (which the empty
initial state does and `get_lock` preserves), repeated `get_lock` calls for
the same chat id — with arbitrary other calls in between — return the
identical lock instance, and calls for two distinct chat ids return
distinct instances. -/
theorem get_lock_fst_of_lookup (now : Nat) (s : LockState) (c : String) (l t : Nat)
    (h : lookupLock s.locks c = some (l, t)) : (get_lock now s c).1 = l := by
  unfold get_lock
  rw [h]

theorem get_lock_fst_of_none (now : Nat) (s : LockState) (c : String)
    (h : lookupLock s.locks c = none) : (get_lock now s c).1 = s.next := by
  unfold get_lock
  rw [h]

theorem claim_C8_lock_identity (s : LockState) (hinv : LockInv s) (c c2 : String)
    (t1 t2 : Nat) (mid : List (String × Nat)) :
    (get_lock t2 (runLockCalls (get_lock t1 s c).2 mid) c).1 = (get_lock t1 s c).1 ∧
    (c ≠ c2 → (get_lock t2 (get_lock t1 s c).2 c2).1 ≠ (get_lock t1 s c).1) := by
  have hs1 := get_lock_lookup_self t1 s c
  have hinv1 : LockInv (get_lock t1 s c).2 := LockInv_get_lock t1 s c hinv
  have hm1 : (c, (get_lock t1 s c).1, t1) ∈ (get_lock t1 s c).2.locks :=
    lookupLock_mem _ _ _ hs1
  constructor
  · obtain ⟨t3, h2⟩ := runLockCalls_preserves mid (get_lock t1 s c).2 c
      (get_lock t1 s c).1 t1 hs1
    exact get_lock_fst_of_lookup t2 _ c _ t3 h2
  · intro hne
    cases hc2 : lookupLock (get_lock t1 s c).2.locks c2 with
    | some w =>
      obtain ⟨lw, tw⟩ := w
      rw [get_lock_fst_of_lookup t2 _ c2 lw tw hc2]
      have hm2 : (c2, lw, tw) ∈ (get_lock t1 s c).2.locks :=
        lookupLock_mem _ _ _ hc2
      intro heq
      have hee := List.inj_on_of_nodup_map hinv1.2 hm2 hm1 (by simpa using heq)
      exact hne (by injection hee with hx hy; exact hx.symm)
    | none =>
      rw [get_lock_fst_of_none t2 _ c2 hc2]
      have := hinv1.1 _ hm1
      simp only at this
      omega

/-- Witness for C8: from the empty registry, chat "1" gets the same instance
back after an interleaved call for chat "3", and chat "2" gets a different
instance. -/
theorem claim_C8_lock_identity_witness :
    (get_lock 9 (runLockCalls (get_lock 0 ⟨[], 0⟩ "1").2 [("3", 5)]) "1").1
      = (get_lock 0 ⟨[], 0⟩ "1").1 ∧
    (get_lock 9 (get_lock 0 ⟨[], 0⟩ "1").2 "2").1 ≠ (get_lock 0 ⟨[], 0⟩ "1").1 := by
  have h := claim_C8_lock_identity ⟨[], 0⟩ (by constructor <;> simp) "1" "2" 0 9 [("3", 5)]
  exact ⟨h.1, h.2 (by decide)⟩

theorem run_provider_loop_success (behave : String → BackendResult)
    (l : List String) :
    (run_provider_loop behave l).success
      = (l.find? (fun n => wins (behave n))).map (fun n => (okText (behave n), n)) := by
  induction l with
  | nil => rfl
  | cons n rest ih =>
    unfold run_provider_loop
    cases hb : behave n with
    | ok t =>
      by_cases ht : t = ""
      · subst ht
        simp [List.find?_cons, hb, wins, ih]
      · simp [List.find?_cons, hb, wins, ht, okText]
    | err e => simp [List.find?_cons, hb, wins, ih]

theorem run_provider_loop_error_log (behave : String → BackendResult)
    (l : List String) :
    (run_provider_loop behave l).error_log
      = (l.takeWhile (fun n => ! wins (behave n))).filterMap (errEntry behave) := by
  induction l with
  | nil => rfl
  | cons n rest ih =>
    unfold run_provider_loop
    cases hb : behave n with
    | ok t =>
      by_cases ht : t = ""
      · subst ht
        simp [List.takeWhile_cons, hb, wins, ih, errEntry]
      · simp [List.takeWhile_cons, hb, wins, ht, errEntry]
    | err e => simp [List.takeWhile_cons, hb, wins, ih, errEntry]

theorem run_provider_loop_invoked (behave : String → BackendResult)
    (l : List String) :
    (run_provider_loop behave l).invoked
      = match l.find? (fun n => wins (behave n)) with
        | some n => (l.takeWhile (fun x => ! wins (behave x))) ++ [n]
        | none => l := by
  induction l with
  | nil => rfl
  | cons n rest ih =>
    by_cases hw : wins (behave n)
    · rw [List.find?_cons_of_pos _ (by simpa using hw),
        List.takeWhile_cons_of_neg (by simp [hw])]
      unfold run_provider_loop
      cases hb : behave n with
      | ok t =>
        have ht : ¬ t = "" := by
          rw [hb] at hw
          simpa [wins] using hw
        simp [ht]
      | err e =>
        rw [hb] at hw
        simp [wins] at hw
    · rw [List.find?_cons_of_neg _ (by simpa using hw),
        List.takeWhile_cons_of_pos (by simpa using hw)]
      have hstep : (run_provider_loop behave (n :: rest)).invoked
          = n :: (run_provider_loop behave rest).invoked := by
        cases hb : behave n with
        | ok t =>
          have ht : t = "" := by
            rw [hb] at hw
            simpa [wins] using hw
          subst ht
          simp only [run_provider_loop, hb]
          simp
        | err e =>
          simp only [run_provider_loop, hb]
      rw [hstep, ih]
      cases rest.find? (fun n => wins (behave n)) <;> simp

theorem takeWhile_eq_self_of_all (p : String → Bool) (l : List String)
    (h : ∀ x ∈ l, p x = true) : l.takeWhile p = l := by
  induction l with
  | nil => rfl
  | cons a t ih =>
    rw [List.takeWhile_cons_of_pos (h a (by simp)), ih (fun x hx => h x (by simp [hx]))]

/-- **C6.**  With a duplicate-free configured provider list containing the
preferred provider: the service chain is the preferred provider first, then
the remaining configured providers in configuration order, each at most
once; the first backend returning non-empty text wins, its name is reported
as the source and no later backend is invoked; and the reply fails if and
only if every backend in the chain raises or returns empty text, in which
case the aggregate error enumerates each raising backend's name with its
truncated message. -/
theorem claim_C6_provider_failover (provider_list : List String)
    (preferred : String) (behave : String → BackendResult)
    (hn : provider_list.Nodup) (hp : preferred ∈ provider_list) :
    get_service_chain provider_list preferred
      = preferred :: provider_list.filter (fun n => decide (n ≠ preferred)) ∧
    (get_service_chain provider_list preferred).Nodup ∧
    (∀ n, (get_service_chain provider_list preferred).find?
        (fun x => wins (behave x)) = some n →
      core_reply behave provider_list preferred = .ok (okText (behave n), n) ∧
      wins (behave n) = true ∧
      (run_provider_loop behave (get_service_chain provider_list preferred)).invoked
        = ((get_service_chain provider_list preferred).takeWhile
            (fun x => ! wins (behave x))) ++ [n]) ∧
    ((get_service_chain provider_list preferred).find?
        (fun x => wins (behave x)) = none →
      core_reply behave provider_list preferred
        = .error ("所有线路均失败: " ++ String.intercalate "; "
            ((get_service_chain provider_list preferred).filterMap (errEntry behave)))) ∧
    ((∀ n ∈ get_service_chain provider_list preferred, wins (behave n) = false) ↔
      ∃ msg, core_reply behave provider_list preferred = .error msg) := by
  refine ⟨?_, ?_, ?_, ?_, ?_⟩
  · unfold get_service_chain
    rw [if_pos hp]
    rfl
  · unfold get_service_chain
    rw [if_pos hp]
    rw [List.singleton_append, List.nodup_cons]
    refine ⟨?_, hn.filter _⟩
    intro hmem
    have := (List.mem_filter.mp hmem).2
    simp at this
  · intro n hfind
    refine ⟨?_, by simpa using List.find?_some hfind, ?_⟩
    · unfold core_reply
      simp only [run_provider_loop_success, hfind, Option.map_some']
    · rw [run_provider_loop_invoked, hfind]
  · intro hfind
    unfold core_reply
    simp only [run_provider_loop_success, hfind, Option.map_none',
      run_provider_loop_error_log]
    rw [takeWhile_eq_self_of_all]
    intro x hx
    have := List.find?_eq_none.mp hfind x hx
    simp only [Bool.not_eq_true] at this
    simp [this]
  · constructor
    · intro hall
      refine ⟨"所有线路均失败: " ++ String.intercalate "; "
        ((run_provider_loop behave (get_service_chain provider_list preferred)).error_log), ?_⟩
      unfold core_reply
      have hfn : (get_service_chain provider_list preferred).find?
          (fun x => wins (behave x)) = none :=
        List.find?_eq_none.mpr (fun x hx => by simp [hall x hx])
      simp only [run_provider_loop_success, hfn, Option.map_none']
    · rintro ⟨msg, hmsg⟩ n hmem
      by_contra hwin
      simp only [Bool.not_eq_false] at hwin
      obtain ⟨w, hw⟩ : ∃ w, (get_service_chain provider_list preferred).find?
          (fun x => wins (behave x)) = some w := by
        cases hf : (get_service_chain provider_list preferred).find?
            (fun x => wins (behave x)) with
        | none =>
          have := List.find?_eq_none.mp hf n hmem
          simp [hwin] at this
        | some w => exact ⟨w, rfl⟩
      unfold core_reply at hmsg
      simp only [run_provider_loop_success, hw, Option.map_some'] at hmsg
      exact Except.noConfusion hmsg

set_option maxRecDepth 4000 in
/-- Witness for C6: with providers `[grok, deepseek, gemini]` and preferred
`deepseek`, the chain is `[deepseek, grok, gemini]`; when the first two
raise, `gemini` wins and is reported as the source; when all raise, the
aggregate error enumerates all three. -/
theorem claim_C6_provider_failover_witness :
    (["grok", "deepseek", "gemini"] : List String).Nodup ∧
    ("deepseek" : String) ∈ ["grok", "deepseek", "gemini"] ∧
    get_service_chain ["grok", "deepseek", "gemini"] "deepseek"
      = ["deepseek", "grok", "gemini"] ∧
    core_reply behaveDemo ["grok", "deepseek", "gemini"] "deepseek"
      = .ok ("hello", "gemini") ∧
    core_reply behaveAllFail ["grok", "deepseek", "gemini"] "deepseek"
      = .error ("所有线路均失败: " ++ String.intercalate "; "
          ["deepseek: down-deepseek...", "grok: down-grok...", "gemini: down-gemini..."]) := by
  refine ⟨by decide, by decide, ?_, ?_, ?_⟩
  · have h := (claim_C6_provider_failover ["grok", "deepseek", "gemini"]
      "deepseek" behaveDemo (by decide) (by decide)).1
    rw [h]
    decide
  · have h := ((claim_C6_provider_failover ["grok", "deepseek", "gemini"]
      "deepseek" behaveDemo (by decide) (by decide)).2.2.1 "gemini" (by decide)).1
    rw [h]
    simp [behaveDemo, okText]
  · have h := (claim_C6_provider_failover ["grok", "deepseek", "gemini"]
      "deepseek" behaveAllFail (by decide) (by decide)).2.2.2.1 (by decide)
    rw [h]
    simp [behaveAllFail, errEntry, truncatedFailure, get_service_chain]
    decide

theorem lookupRef_setRef_self (l : List (String × Ref)) (cid : String) (r : Ref) :
    lookupRef (setRef l cid r) cid = some r := by
  induction l with
  | nil => simp [setRef, lookupRef]
  | cons p t ih =>
    obtain ⟨c, v⟩ := p
    by_cases hc : c = cid <;> simp [setRef, lookupRef, hc, ih]

theorem heapRead_append_new (h : List (List Msg)) (v : List Msg) :
    heapRead (h ++ [v]) h.length = v := by
  unfold heapRead
  rw [List.getElem?_concat_length]
  rfl

theorem heapRead_append_old (h : List (List Msg)) (v : List Msg) (r : Ref)
    (hr : r < h.length) : heapRead (h ++ [v]) r = heapRead h r := by
  unfold heapRead
  rw [List.getElem?_append_left hr]

theorem heapRead_set_ne (h : List (List Msg)) (r r2 : Ref) (v : List Msg)
    (hne : r2 ≠ r) : heapRead (h.set r2 v) r = heapRead h r := by
  unfold heapRead
  rw [List.getElem?_set_ne hne]

theorem get_hit_content (s : AliasCache) (cid : String) (rc : Ref)
    (hydrated : List Msg) (hl : lookupRef s.entries cid = some rc) :
    heapRead (get_context_alias s cid hydrated).2.heap
        (get_context_alias s cid hydrated).1 = heapRead s.heap rc := by
  unfold get_context_alias
  rw [hl]
  unfold deepcopyAlloc
  simp [heapRead_append_new]

theorem get_hit_entries (s : AliasCache) (cid : String) (rc : Ref)
    (hydrated : List Msg) (hl : lookupRef s.entries cid = some rc) :
    (get_context_alias s cid hydrated).2.entries = s.entries := by
  unfold get_context_alias
  rw [hl]
  rfl

/-- **C4.**  `get` immediately after `update(chatId, r)` hands out an object
whose content equals what was passed, the handed-out object is a different
reference from both the cache-owned object and the caller's argument, and
mutating either the argument object or the handed-out object leaves the
content of every subsequent `get` for that chat id unchanged: the cache
stores and returns deep copies, never shared references. -/
theorem claim_C4_cache_copy_isolation (s : AliasCache) (cid : String) (r : Ref)
    (t : List Msg) (hr : r < s.heap.length) (ht : heapRead s.heap r = t)
    (v v2 : List Msg) :
    heapRead (get_context_alias (update_context_alias s cid r) cid []).2.heap
        (get_context_alias (update_context_alias s cid r) cid []).1 = t ∧
    (∃ rc, lookupRef (get_context_alias (update_context_alias s cid r) cid
          []).2.entries cid = some rc ∧
        (get_context_alias (update_context_alias s cid r) cid []).1 ≠ rc ∧
        r ≠ rc) ∧
    heapRead (get_context_alias (mutateRef
        (get_context_alias (update_context_alias s cid r) cid []).2 r v)
          cid []).2.heap
      (get_context_alias (mutateRef
        (get_context_alias (update_context_alias s cid r) cid []).2 r v)
          cid []).1 = t ∧
    heapRead (get_context_alias (mutateRef
        (get_context_alias (update_context_alias s cid r) cid []).2
        (get_context_alias (update_context_alias s cid r) cid []).1 v2)
          cid []).2.heap
      (get_context_alias (mutateRef
        (get_context_alias (update_context_alias s cid r) cid []).2
        (get_context_alias (update_context_alias s cid r) cid []).1 v2)
          cid []).1 = t := by
  have h1 : update_context_alias s cid r
      = { heap := s.heap ++ [t],
          entries := setRef s.entries cid s.heap.length } := by
    unfold update_context_alias deepcopyAlloc
    simp [ht]
  have hlook : lookupRef (setRef s.entries cid s.heap.length) cid
      = some s.heap.length := lookupRef_setRef_self s.entries cid s.heap.length
  have hrc1 : heapRead (s.heap ++ [t]) s.heap.length = t := heapRead_append_new s.heap t
  have h2 : get_context_alias (update_context_alias s cid r) cid []
      = (s.heap.length + 1,
         { heap := (s.heap ++ [t]) ++ [t],
           entries := setRef s.entries cid s.heap.length }) := by
    rw [h1]
    unfold get_context_alias
    rw [hlook]
    unfold deepcopyAlloc
    simp [hrc1]
  refine ⟨?_, ?_, ?_, ?_⟩
  · rw [get_hit_content _ cid s.heap.length [] (by rw [h1]; exact hlook), h1]
    exact hrc1
  · refine ⟨s.heap.length, ?_, ?_, Nat.ne_of_lt hr⟩
    · rw [h2]
      exact hlook
    · rw [h2]
      simp
  · rw [get_hit_content _ cid s.heap.length []
      (by rw [h2]; exact hlook)]
    rw [h2]
    unfold mutateRef
    simp only
    rw [heapRead_set_ne _ _ _ _ (Nat.ne_of_lt hr)]
    rw [heapRead_append_old _ _ _ (by simp), hrc1]
  · rw [get_hit_content _ cid s.heap.length []
      (by rw [h2]; exact hlook)]
    rw [h2]
    unfold mutateRef
    simp only
    rw [heapRead_set_ne _ _ _ _ (by simp)]
    rw [heapRead_append_old _ _ _ (by simp), hrc1]

/-- Witness for C4: a one-object arena; after `update` and `get`, mutating
the caller's object or the returned object does not change what `get`
returns. -/
theorem claim_C4_cache_copy_isolation_witness :
    (0 : Ref) < (AliasCache.mk [[mkMsg "user" "a" (some "u1")]] []).heap.length ∧
    heapRead (AliasCache.mk [[mkMsg "user" "a" (some "u1")]] []).heap 0
      = [mkMsg "user" "a" (some "u1")] ∧
    heapRead (get_context_alias (update_context_alias
        (AliasCache.mk [[mkMsg "user" "a" (some "u1")]] []) "7" 0) "7" []).2.heap
      (get_context_alias (update_context_alias
        (AliasCache.mk [[mkMsg "user" "a" (some "u1")]] []) "7" 0) "7" []).1
      = [mkMsg "user" "a" (some "u1")] := by
  refine ⟨by decide, by decide, ?_⟩
  exact (claim_C4_cache_copy_isolation
    (AliasCache.mk [[mkMsg "user" "a" (some "u1")]] []) "7" 0
    [mkMsg "user" "a" (some "u1")] (by decide) (by decide) [] []).1

theorem lookupEntry_setEntry_self (l : List (String × CacheEntry))
    (cid : String) (e : CacheEntry) :
    lookupEntry (setEntry l cid e) cid = some e := by
  induction l with
  | nil => simp [setEntry, lookupEntry]
  | cons p t ih =>
    obtain ⟨c, v⟩ := p
    by_cases hc : c = cid <;> simp [setEntry, lookupEntry, hc, ih]

theorem lookupEntry_setEntry_other (l : List (String × CacheEntry))
    (cid c2 : String) (e : CacheEntry) (h : c2 ≠ cid) :
    lookupEntry (setEntry l cid e) c2 = lookupEntry l c2 := by
  induction l with
  | nil =>
    have hne : ¬ cid = c2 := fun hh => h hh.symm
    simp [setEntry, lookupEntry, hne]
  | cons p t ih =>
    obtain ⟨c, v⟩ := p
    by_cases hc : c = cid
    · subst hc
      have hne : ¬ c = c2 := fun hh => h hh.symm
      simp [setEntry, lookupEntry, hne]
    · simp [setEntry, lookupEntry, hc]
      by_cases hc2 : c = c2 <;> simp [hc2, ih]

theorem lookupStore_setStore_self (l : List (String × List Msg))
    (cid : String) (d : List Msg) :
    lookupStore (setStore l cid d) cid = some d := by
  induction l with
  | nil => simp [setStore, lookupStore]
  | cons p t ih =>
    obtain ⟨c, v⟩ := p
    by_cases hc : c = cid <;> simp [setStore, lookupStore, hc, ih]

/-- A failed store write makes `_flush_to_db` a no-op on the whole state. -/
theorem flush_to_db_fail_eq (s : FlushState) (cid : String) :
    _flush_to_db false s cid = s := by
  unfold _flush_to_db
  cases lookupEntry s.cache cid <;> simp

/-- `_flush_evictions` never disturbs an association already in the cache. -/
theorem flush_evictions_preserves (ok : String → Bool) (now : Nat)
    (pend : List (String × CacheEntry)) (s : FlushState) (c : String)
    (x : CacheEntry) (h : lookupEntry s.cache c = some x) :
    lookupEntry (_flush_evictions ok now s pend).cache c = some x := by
  induction pend generalizing s with
  | nil => exact h
  | cons p rest ih =>
    obtain ⟨cid, e⟩ := p
    unfold _flush_evictions
    by_cases hd : e.dirty_count ≤ 0
    · simp only [hd, if_true]
      exact ih s h
    · simp only [hd, if_false]
      by_cases hok : ok cid
      · simp only [hok, if_true]
        exact ih _ h
      · simp only [hok, if_false]
        by_cases habs : (lookupEntry s.cache cid).isNone
        · have hne : c ≠ cid := by
            intro he
            subst he
            rw [h] at habs
            simp at habs
          simp only [habs, if_true]
          exact ih _ (by simpa [lookupEntry_setEntry_other _ _ _ _ hne] using h)
        · simp only [habs, if_false]
          exact ih s h

theorem lookupEntry_mem (l : List (String × CacheEntry)) (cid : String)
    (e : CacheEntry) (h : lookupEntry l cid = some e) : (cid, e) ∈ l := by
  induction l with
  | nil => simp [lookupEntry] at h
  | cons p t ih =>
    obtain ⟨c, w⟩ := p
    by_cases hc : c = cid
    · subst hc
      simp [lookupEntry] at h
      simp [h]
    · simp [lookupEntry, hc] at h
      simp [ih h]

theorem lookupEntry_none_of_key_absent (l : List (String × CacheEntry))
    (cid : String) (h : cid ∉ l.map Prod.fst) : lookupEntry l cid = none := by
  induction l with
  | nil => rfl
  | cons p t ih =>
    obtain ⟨c, w⟩ := p
    simp only [List.map_cons, List.mem_cons] at h
    push_neg at h
    have hne : ¬ c = cid := fun he => h.1 he.symm
    simp [lookupEntry, hne, ih h.2]

/-- Re-admission: a dirty evicted entry whose store write failed is back in
the cache afterwards, with its data and dirty count intact. -/
theorem flush_evictions_readmits (ok : String → Bool) (now : Nat) (cid : String)
    (e : CacheEntry) (hd : e.dirty_count > 0) (hok : ok cid = false) :
    ∀ pend : List (String × CacheEntry), (pend.map Prod.fst).Nodup →
      (cid, e) ∈ pend → ∀ s2 : FlushState, lookupEntry s2.cache cid = none →
      lookupEntry (_flush_evictions ok now s2 pend).cache cid
        = some { e with last_access := now } := by
  intro pend
  induction pend with
  | nil =>
    intro _ hmem
    cases hmem
  | cons p rest ih =>
    intro hnd hmem s2 habs
    obtain ⟨c2, e2⟩ := p
    rcases List.mem_cons.mp hmem with heq | hmem2
    · obtain ⟨h1, h2⟩ : cid = c2 ∧ e = e2 := by
        injection heq with ha hb
        exact ⟨ha, hb⟩
      subst h1
      subst h2
      unfold _flush_evictions
      have hd0 : ¬ e.dirty_count ≤ 0 := by omega
      simp only [hd0, if_false, hok, Bool.false_eq_true, habs, Option.isNone_none,
        if_true]
      exact flush_evictions_preserves ok now rest _ cid _
        (lookupEntry_setEntry_self s2.cache cid { e with last_access := now })
    · have hne : c2 ≠ cid := by
        intro he
        subst he
        have : c2 ∈ rest.map Prod.fst := List.mem_map_of_mem Prod.fst hmem2
        exact (List.nodup_cons.mp (by simpa using hnd)).1 this
      have hndr : (rest.map Prod.fst).Nodup := (List.nodup_cons.mp (by simpa using hnd)).2
      unfold _flush_evictions
      by_cases hd2 : e2.dirty_count ≤ 0
      · simp only [hd2, if_true]
        exact ih hndr hmem2 s2 habs
      · simp only [hd2, if_false]
        by_cases hok2 : ok c2 = true
        · simp only [hok2, if_true]
          exact ih hndr hmem2 _ habs
        · simp only [hok2, Bool.not_eq_true, if_false]
          by_cases habs2 : (lookupEntry s2.cache c2).isNone
          · simp only [habs2, if_true]
            refine ih hndr hmem2 _ ?_
            rw [lookupEntry_setEntry_other _ _ _ _ (Ne.symm hne)]
            exact habs
          · simp only [habs2, if_false]
            exact ih hndr hmem2 s2 habs

theorem flush_all_fail_eq (s : FlushState) : flush_all (fun _ => false) s = s := by
  unfold flush_all
  generalize ((s.cache.filter (fun p => p.2.dirty_count > 0)).map Prod.fst) = cids
  induction cids generalizing s with
  | nil => rfl
  | cons c t ih => simp [List.foldl_cons, flush_to_db_fail_eq, ih]

/-- **C5.**  Write-back failure semantics of the conversation cache: a
failed store write in `_flush_to_db` (the dirty-threshold, forced-save,
autosave and flush-all paths) leaves the whole state unchanged — the entry
stays cached with its `dirty_count` not reset, so `get` still returns the
unsaved mutations; `dirty_count` is reset to 0 (and the data persisted)
only when the write succeeds; `flush_all` over a failing store changes
nothing; a failed update-triggered flush still leaves the new transcript
and the incremented dirty count in the cache; and a dirty entry evicted
(capacity or idle) whose write fails is re-admitted with data and dirty
count intact — in particular an idle-evicted dirty entry survives a failed
flush.  All paths catch the store exception, so none throws. -/
theorem claim_C5_persist_failure_keeps_dirty (s : FlushState) (cid : String)
    (e : CacheEntry) (hlook : lookupEntry s.cache cid = some e) :
    _flush_to_db false s cid = s ∧
    lookupEntry (_flush_to_db true s cid).cache cid
      = some { e with dirty_count := 0 } ∧
    lookupStore (_flush_to_db true s cid).store cid = some e.data ∧
    flush_all (fun _ => false) s = s ∧
    (∀ now ctx fs, lookupEntry (update_context_val false now s cid ctx fs).cache cid
        = some { data := ctx, dirty_count := e.dirty_count + 1,
                 summary_cooldown := e.summary_cooldown, last_access := now }) ∧
    (∀ (ok : String → Bool) (now : Nat) (pend : List (String × CacheEntry))
        (s2 : FlushState), (pend.map Prod.fst).Nodup → (cid, e) ∈ pend →
        e.dirty_count > 0 → ok cid = false →
        lookupEntry s2.cache cid = none →
        lookupEntry (_flush_evictions ok now s2 pend).cache cid
          = some { e with last_access := now }) ∧
    (∀ (ok : String → Bool) (now ttl : Nat), (s.cache.map Prod.fst).Nodup →
        now - e.last_access > ttl → e.dirty_count > 0 → ok cid = false →
        lookupEntry (_flush_evictions ok now
            (_evict_inactive_entries now ttl s).2
            (_evict_inactive_entries now ttl s).1).cache cid
          = some { e with last_access := now }) := by
  refine ⟨flush_to_db_fail_eq s cid, ?_, ?_, flush_all_fail_eq s, ?_, ?_, ?_⟩
  · unfold _flush_to_db
    rw [hlook]
    simp [lookupEntry_setEntry_self]
  · unfold _flush_to_db
    rw [hlook]
    simp [lookupStore_setStore_self]
  · intro now ctx fs
    unfold update_context_val
    rw [hlook]
    simp only [flush_to_db_fail_eq, ite_self]
    exact lookupEntry_setEntry_self s.cache cid _
  · intro ok now pend s2 hnd hmem hd hok habs
    exact flush_evictions_readmits ok now cid e hd hok pend hnd hmem s2 habs
  · intro ok now ttl hkeys httl hd hok
    apply flush_evictions_readmits ok now cid e hd hok
    · unfold _evict_inactive_entries
      exact List.Nodup.sublist (List.Sublist.map Prod.fst (List.filter_sublist _)) hkeys
    · unfold _evict_inactive_entries
      refine List.mem_filter.mpr ⟨lookupEntry_mem s.cache cid e hlook, ?_⟩
      simpa using httl
    · unfold _evict_inactive_entries
      apply lookupEntry_none_of_key_absent
      intro hmemk
      obtain ⟨p, hp, hpf⟩ := List.mem_map.mp hmemk
      have hpl := (List.mem_filter.mp hp).1
      have hpc := (List.mem_filter.mp hp).2
      have hpe : p = (cid, e) := by
        apply List.inj_on_of_nodup_map hkeys hpl
          (lookupEntry_mem s.cache cid e hlook)
        simpa using hpf
      rw [hpe] at hpc
      simp only [decide_eq_true_eq] at hpc
      exact hpc httl

/-- Witness for C5: a failed flush leaves the singleton cache unchanged,
and a dirty evicted entry with a failed write is re-admitted. -/
theorem claim_C5_persist_failure_keeps_dirty_witness :
    lookupEntry [("7", entryDemo)] "7" = some entryDemo ∧
    _flush_to_db false ⟨[("7", entryDemo)], []⟩ "7" = ⟨[("7", entryDemo)], []⟩ ∧
    lookupEntry (_flush_evictions (fun _ => false) 50 ⟨[], []⟩
        [("7", entryDemo)]).cache "7" = some { entryDemo with last_access := 50 } := by
  refine ⟨by decide, ?_, ?_⟩
  · exact (claim_C5_persist_failure_keeps_dirty ⟨[("7", entryDemo)], []⟩ "7"
      entryDemo (by decide)).1
  · exact (claim_C5_persist_failure_keeps_dirty ⟨[("7", entryDemo)], []⟩ "7"
      entryDemo (by decide)).2.2.2.2.2.1 (fun _ => false) 50 [("7", entryDemo)]
      ⟨[], []⟩ (by decide) (by decide) (by decide) rfl rfl

/-- Counterexample to C9: hydrating a store row whose stored id is null
yields a turn whose id is still null (`load_chat_history` always sets the
`uuid` key, so `_ensure_uuid`'s key-presence check never fires), and two
rows with the same stored id hydrate to duplicate ids. -/
theorem claim_C9_counterexample :
    ¬ (∀ m ∈ hydrate_context fidDemo [rowNullDemo], m.getUuid ≠ none) ∧
    ¬ ((hydrate_context fidDemo [rowADemo, rowADemo]).map Msg.getUuid).Nodup := by
  constructor
  · intro h
    exact h hydratedNullDemo (by decide) rfl
  · intro h
    have : (hydrate_context fidDemo [rowADemo, rowADemo]).map Msg.getUuid
        = [some "a", some "a"] := by decide
    rw [this] at h
    simp at h

theorem ensure_uuid_id_on_present (freshIds : Nat → String) (n : Nat)
    (l : List Msg) (h : ∀ m ∈ l, m.uuid ≠ .absent) :
    (_ensure_uuid freshIds n l).1 = l := by
  induction l generalizing n with
  | nil => rfl
  | cons m rest ih =>
    unfold _ensure_uuid
    cases hm : m.uuid with
    | absent => exact absurd hm (h m (by simp))
    | val v => simp [ih n (fun x hx => h x (by simp [hx]))]

/-- **C9 amended.**  On a cache miss, `get` hydrates the transcript with
every stored id preserved verbatim: `load_chat_history` always sets the
`uuid` key, so `_ensure_uuid` (which assigns fresh ids only to turns whose
key is absent) is the identity on the loaded data.  A turn's id is
therefore non-null exactly when the stored id is — which the schema's
`NOT NULL` guarantees — turns with a null stored value keep a null id, and
duplicate stored ids are not deduplicated. -/
theorem claim_C9_amended_hydration (freshIds : Nat → String)
    (rows : List ChatRow) :
    hydrate_context freshIds rows = load_chat_history rows ∧
    (hydrate_context freshIds rows).map Msg.getUuid = rows.map ChatRow.msg_uuid ∧
    ((∀ r ∈ rows, r.msg_uuid ≠ none) →
      ∀ m ∈ hydrate_context freshIds rows, m.getUuid ≠ none) := by
  have hid : hydrate_context freshIds rows = load_chat_history rows := by
    unfold hydrate_context
    apply ensure_uuid_id_on_present
    intro m hm
    unfold load_chat_history at hm
    obtain ⟨r, _, hr⟩ := List.mem_map.mp hm
    rw [← hr]
    simp
  refine ⟨hid, ?_, ?_⟩
  · rw [hid]
    unfold load_chat_history
    rw [List.map_map]
    apply List.map_congr_left
    intro r _
    simp [Msg.getUuid]
  · intro hnn m hm
    rw [hid] at hm
    unfold load_chat_history at hm
    obtain ⟨r, hr, hrm⟩ := List.mem_map.mp hm
    rw [← hrm]
    simpa [Msg.getUuid] using hnn r hr

/-- Witness for the amended C9: a store with one null-id row and one id-`a`
row hydrates to exactly those ids, and with all ids present hydration
yields non-null ids. -/
theorem claim_C9_amended_hydration_witness :
    (hydrate_context fidDemo [rowNullDemo, rowADemo]).map Msg.getUuid
      = [none, some "a"] ∧
    (∀ r ∈ [rowADemo], r.msg_uuid ≠ none) ∧
    (∀ m ∈ hydrate_context fidDemo [rowADemo], m.getUuid ≠ none) := by
  refine ⟨?_, by decide, ?_⟩
  · rw [(claim_C9_amended_hydration fidDemo [rowNullDemo, rowADemo]).2.1]
    decide
  · exact (claim_C9_amended_hydration fidDemo [rowADemo]).2.2 (by decide)

end Pikakko
